import Mathlib

/-
Verification of the GRLP network-coupled long-profile evolution engine.

The repository ships a driver script (examples/NewNetwork_5segments.py) that
exercises the core `grlp` module (Network / LongProfile segments).  The core
module itself is not part of the provided sources, so the engine below is
modelled from the specification: segments carry position / elevation /
discharge / width arrays, a network couples them along a DAG, and one implicit
timestep assembles a global linear system (interior diffusion rows, headwater
fixed-slope rows, outlet fixed-elevation rows, junction continuity and flux
rows) and solves it exactly over ℚ.  The solver validates its own inverse, so
a singular assembled system surfaces as a NumericalError, mirroring the
specified failure taxonomy.
-/

namespace GRLP

/-- Modelled from the spec: the error taxonomy of §7 (ConfigurationError,
TopologyError, NumericalError). -/
inductive Err where
  | configurationError
  | topologyError
  | numericalError
deriving DecidableEq

abbrev Vec := List ℚ

abbrev Mat := List (List ℚ)

/-- Dot product of two coefficient rows (truncating to the shorter one). -/
def dot (r v : Vec) : ℚ := (List.zipWith (· * ·) r v).sum

/-- Scale a row by a constant. -/
def smulVec (c : ℚ) (r : Vec) : Vec := r.map (fun a => c * a)

/-- Componentwise sum of two rows. -/
def addVec (u v : Vec) : Vec := List.zipWith (· + ·) u v

/-- The all-zero row of length `n`. -/
def zeroVec (n : ℕ) : Vec := List.replicate n 0

/-- The row of length `N` holding `c` at index `i` and `0` elsewhere. -/
def unitVec (N i : ℕ) (c : ℚ) : Vec := zeroVec i ++ c :: zeroVec (N - i - 1)

/-- Matrix-vector product, rows as lists. -/
def mulVec (M : Mat) (v : Vec) : Vec := M.map (fun r => dot r v)

/-- Linear combination of the rows of `rows` with coefficients `cs`,
padded to width `N`. -/
def linComb (N : ℕ) (cs : Vec) (rows : Mat) : Vec :=
  (List.zipWith smulVec cs rows).foldr addVec (zeroVec N)

/-- Matrix product: row `i` of the result is the combination of the rows of
`B` with the coefficients of row `i` of `A`. -/
def matMul (N : ℕ) (A B : Mat) : Mat := A.map (fun r => linComb N r B)

/-- Identity matrix of size `N`. -/
def idMat (N : ℕ) : Mat := (List.range N).map (fun i => unitVec N i 1)

/-- Runtime check that `M` is a square `N × N` matrix. -/
def squareWF (N : ℕ) (M : Mat) : Bool :=
  M.length == N && M.all (fun r => r.length == N)

/-- Index (if any) of a row at position `≥ k` whose entry in column `k` is
nonzero: the pivot search of Gauss-Jordan elimination. -/
def findPivot (rows : Mat) (k : ℕ) : Option ℕ :=
  ((List.range rows.length).drop k).find?
    (fun p => decide ((rows.getD p []).getD k 0 ≠ 0))

/-- One Gauss-Jordan round: bring a pivot into row `k`, scale it to 1 and
eliminate column `k` from every other row.  Fails when no pivot exists. -/
def elimStep (rows : Mat) (k : ℕ) : Option Mat :=
  match findPivot rows k with
  | none => none
  | some p =>
    let rk := rows.getD k []
    let rp := rows.getD p []
    let rows1 := (rows.set k rp).set p rk
    let piv := rp.getD k 0
    let prow := smulVec piv⁻¹ rp
    some ((List.range rows1.length).map (fun i =>
      if i = k then prow
      else
        let ri := rows1.getD i []
        addVec ri (smulVec (-(ri.getD k 0)) prow)))

/-- Full Gauss-Jordan elimination over the first `N` columns. -/
def gaussJordan (N : ℕ) (rows : Mat) : Option Mat :=
  (List.range N).foldl (fun acc k => acc.bind (fun rs => elimStep rs k)) (some rows)

/-- Candidate inverse of `A` computed by eliminating the augmented system
`[A | I]`; unvalidated (the solver re-checks the result). -/
def gjInverse (N : ℕ) (A : Mat) : Option Mat :=
  let aug := (List.range N).map (fun i => (A.getD i []) ++ (idMat N).getD i [])
  (gaussJordan N aug).map (fun rs => rs.map (fun r => r.drop N))

/-- Modelled from the spec: the direct sparse solve of `advance_one_step`.
Computes a candidate inverse and verifies it both ways before applying it, so
that a returned solution provably satisfies the system and is unique; any
failure (singular or ill-conditioned assembly) yields `none`, which the
caller reports as a NumericalError. -/
def solveLinear (N : ℕ) (A : Mat) (b : Vec) : Option Vec :=
  match gjInverse N A with
  | none => none
  | some Binv =>
    if squareWF N A = true ∧ squareWF N Binv = true ∧ b.length = N ∧
       matMul N A Binv = idMat N ∧ matMul N Binv A = idMat N
    then some (mulVec Binv b) else none

/-- Modelled from the spec: one river reach (the `LongProfile` segment data
abstraction of §3): along-channel positions, bed elevation, discharge and
width arrays, the upstream fixed-slope boundary value for headwaters, and the
adjacency lists. -/
structure Seg where
  x : List ℚ
  z : List ℚ
  Q : List ℚ
  B : List ℚ
  S0 : Option ℚ
  upstreamIDs : List ℕ
  downstreamIDs : List ℕ
deriving DecidableEq

instance : Inhabited Seg := ⟨⟨[], [], [], [], none, [], []⟩⟩

/-- Modelled from the spec: the Network component (§3/§4.3): the ordered
collection of segments plus the global base-level position and elevation. -/
structure Network where
  segs : List Seg
  x_bl : ℚ
  z_bl : ℚ
deriving DecidableEq

instance : Inhabited Network := ⟨⟨[], 0, 0⟩⟩

/-- Segment with identifier `sid` (default segment out of range). -/
def Network.seg (net : Network) (sid : ℕ) : Seg := net.segs.getD sid default

/-- Number of segments. -/
def Network.nseg (net : Network) : ℕ := net.segs.length

/-- Number of nodes of segment `sid`. -/
def numel (net : Network) (sid : ℕ) : ℕ := (net.seg sid).z.length

/-- Offset of segment `sid` in the global unknown vector. -/
def offset (net : Network) (sid : ℕ) : ℕ :=
  ((net.segs.take sid).map (fun s => s.z.length)).sum

/-- Total number of nodes (global unknowns) in the network. -/
def totalN (net : Network) : ℕ := (net.segs.map (fun s => s.z.length)).sum

/-- Global unknown index of node `i` of segment `sid`. -/
def gidx (net : Network) (sid i : ℕ) : ℕ := offset net sid + i

/-- Position of node `i` of segment `sid`. -/
def xAt (net : Network) (sid i : ℕ) : ℚ := (net.seg sid).x.getD i 0

/-- Elevation of node `i` of segment `sid`. -/
def zAt (net : Network) (sid i : ℕ) : ℚ := (net.seg sid).z.getD i 0

/-- Modelled from the spec: the threshold-width diffusion coefficient, a
pluggable closure required only to be monotonic in discharge; the model uses
discharge over width. -/
def Dcoef (s : Seg) (i : ℕ) : ℚ := s.Q.getD i 0 / s.B.getD i 0

/-- Modelled from the spec: headwater boundary row (§4.1), a fixed-slope
Neumann condition on the first two nodes. -/
def headRow (net : Network) (sid : ℕ) : Vec × ℚ :=
  let N := totalN net
  (addVec (unitVec N (gidx net sid 0) 1) (unitVec N (gidx net sid 1) (-1)),
   ((net.seg sid).S0.getD 0) * (xAt net sid 1 - xAt net sid 0))

/-- Modelled from the spec: junction elevation-continuity row (§4.2), tying
the downstream-most node of `sid` to the upstream-most node of `d`. -/
def contRow (net : Network) (sid d : ℕ) : Vec × ℚ :=
  let N := totalN net
  (addVec (unitVec N (gidx net sid (numel net sid - 1)) 1)
          (unitVec N (gidx net d 0) (-1)), 0)

/-- Modelled from the spec: outlet boundary row (§4.1), a fixed-elevation
Dirichlet condition at the base level. -/
def outRow (net : Network) (sid : ℕ) : Vec × ℚ :=
  (unitVec (totalN net) (gidx net sid (numel net sid - 1)) 1, net.z_bl)

/-- Coefficient of the one-sided flux proxy leaving the last node of
segment `u`. -/
def fluxCoefEnd (net : Network) (u : ℕ) : ℚ :=
  Dcoef (net.seg u) (numel net u - 1) /
    (xAt net u (numel net u - 1) - xAt net u (numel net u - 2))

/-- Coefficient of the one-sided flux proxy entering the first node of
segment `d`. -/
def fluxCoefStart (net : Network) (d : ℕ) : ℚ :=
  Dcoef (net.seg d) 0 / (xAt net d 1 - xAt net d 0)

/-- Row fragment carrying the flux proxy leaving segment `u`. -/
def fluxRowEnd (net : Network) (u : ℕ) : Vec :=
  let N := totalN net
  let c := fluxCoefEnd net u
  addVec (unitVec N (gidx net u (numel net u - 2)) c)
         (unitVec N (gidx net u (numel net u - 1)) (-c))

/-- Modelled from the spec: junction flux-conservation row (§4.2): the flux
proxies leaving all upstream segments sum into the flux proxy entering the
downstream segment `d`. -/
def junctionRow (net : Network) (d : ℕ) : Vec × ℚ :=
  let N := totalN net
  let c := fluxCoefStart net d
  (addVec (((net.seg d).upstreamIDs.map (fluxRowEnd net)).foldr addVec (zeroVec N))
     (addVec (unitVec N (gidx net d 0) (-c)) (unitVec N (gidx net d 1) c)), 0)

/-- Upwind (upstream-side) implicit coefficient of the interior diffusion
stencil at node `i`, evaluated from the previous step's state. -/
def amCoef (net : Network) (dt : ℚ) (sid i : ℕ) : ℚ :=
  dt / ((xAt net sid (i+1) - xAt net sid (i-1)) / 2) *
    (((Dcoef (net.seg sid) (i-1) + Dcoef (net.seg sid) i) / 2) /
      (xAt net sid i - xAt net sid (i-1)))

/-- Downwind (downstream-side) implicit coefficient of the interior
diffusion stencil at node `i`. -/
def apCoef (net : Network) (dt : ℚ) (sid i : ℕ) : ℚ :=
  dt / ((xAt net sid (i+1) - xAt net sid (i-1)) / 2) *
    (((Dcoef (net.seg sid) i + Dcoef (net.seg sid) (i+1)) / 2) /
      (xAt net sid (i+1) - xAt net sid i))

/-- Modelled from the spec: the implicit interior diffusion row (§4.1) at
node `i`, with coefficients evaluated from the previous step's state. -/
def interiorRow (net : Network) (dt : ℚ) (sid i : ℕ) : Vec × ℚ :=
  let N := totalN net
  (addVec (unitVec N (gidx net sid (i-1)) (-(amCoef net dt sid i)))
     (addVec (unitVec N (gidx net sid i) (1 + amCoef net dt sid i + apCoef net dt sid i))
             (unitVec N (gidx net sid (i+1)) (-(apCoef net dt sid i)))),
   zAt net sid i)

/-- Modelled from the spec: the single equation owned by node `i` of segment
`sid` (§4.1-§4.2): headwater or junction-flux row at the first node, outlet
or continuity row at the last node, interior diffusion row elsewhere. -/
def rowFor (net : Network) (dt : ℚ) (sid i : ℕ) : Vec × ℚ :=
  if i = 0 then
    (if (net.seg sid).upstreamIDs = [] then headRow net sid else junctionRow net sid)
  else if i = numel net sid - 1 then
    (match (net.seg sid).downstreamIDs with
     | [] => outRow net sid
     | d :: _ => contRow net sid d)
  else interiorRow net dt sid i

/-- Modelled from the spec: the assembled global system of `advance_one_step`
(§4.3), one equation per node of every segment. -/
def equations (net : Network) (dt : ℚ) : List (Vec × ℚ) :=
  (List.range net.nseg).flatMap
    (fun sid => (List.range (numel net sid)).map (fun i => rowFor net dt sid i))

/-- Scatter a global solution vector back into the per-segment elevation
arrays; every other field is untouched. -/
def applySolution (net : Network) (xs : Vec) : Network :=
  { net with
    segs := (List.range net.nseg).map (fun sid =>
      let s := net.seg sid
      { s with z := (xs.drop (offset net sid)).take s.z.length }) }

/-- Modelled from the spec: `advance_one_step` (§4.3): assemble the global
linear system from the current state, solve it exactly, and apply the
solution; a singular system is a NumericalError and nothing is applied. -/
def advance_one_step (net : Network) (dt : ℚ) : Except Err Network :=
  match solveLinear (totalN net) ((equations net dt).map Prod.fst)
      ((equations net dt).map Prod.snd) with
  | none => .error .numericalError
  | some xs => .ok (applySolution net xs)

/-- Modelled from the spec: the time stepper driven by the example script
(`evolve_threshold_width_river_network`): repeat `advance_one_step`; on a
failed solve, stop and report the error while the state stays at its last
valid value. -/
def evolve_threshold_width_river_network (net : Network) (dt : ℚ) :
    ℕ → Network × Option Err
  | 0 => (net, none)
  | nt + 1 =>
    match advance_one_step net dt with
    | .ok net' => evolve_threshold_width_river_network net' dt nt
    | .error e => (net, some e)

/-- Following the single declared downstream link of segment `s` (the
adjacency is given as raw input lists here). -/
def stepFn (down : List (List ℕ)) (s : ℕ) : Option ℕ := (down.getD s []).head?

/-- Iterating `k` downstream links starting from `s`. -/
def stepIter (down : List (List ℕ)) : ℕ → ℕ → Option ℕ
  | 0, s => some s
  | k + 1, s => (stepFn down s).bind (stepIter down k)

/-- Whether `s` reaches the outlet `o` within `n` downstream links. -/
def reachesOutletB (down : List (List ℕ)) (n o s : ℕ) : Bool :=
  (List.range (n + 1)).any (fun k => stepIter down k s == some o)

/-- Modelled from the spec: adjacency consistency (§3 invariants): matching
list lengths, every neighbor identifier in range and mutually declared, and
at most one downstream segment each. -/
def consistentAdjacency (up down : List (List ℕ)) : Bool :=
  let n := up.length
  decide (down.length = n ∧
    (∀ i < n, ∀ j ∈ down.getD i [], j < n ∧ i ∈ up.getD j []) ∧
    (∀ i < n, ∀ j ∈ up.getD i [], j < n ∧ i ∈ down.getD j []) ∧
    (∀ i < n, (down.getD i []).length ≤ 1))

/-- Modelled from the spec: the unique-sink check (§4.2 failure clause):
exactly one segment has no downstream link, and every segment reaches it by
following downstream links. -/
def outletOK (down : List (List ℕ)) (n : ℕ) : Bool :=
  let outlets := (List.range n).filter (fun s => (down.getD s []).isEmpty)
  outlets.length == 1 &&
    (List.range n).all (fun s => outlets.all (fun o => reachesOutletB down n o s))

/-- All topology validation performed at initialization. -/
def topologyOK (up down : List (List ℕ)) : Bool :=
  consistentAdjacency up down && outletOK down up.length

/-- Strict monotonicity check for a position array. -/
def pairwiseLt : List ℚ → Bool
  | [] => true
  | [_] => true
  | a :: b :: t => decide (a < b) && pairwiseLt (b :: t)

/-- Modelled from the spec: per-segment configuration validation (§4.3):
array lengths agree, at least two nodes, strictly increasing positions,
nonnegative discharge and width, and one upstream-slope value per headwater
segment. -/
def configOK (S0 : List ℚ) (up : List (List ℕ)) (x z Q B : List (List ℚ)) : Bool :=
  let n := up.length
  decide (x.length = n ∧ z.length = n ∧ Q.length = n ∧ B.length = n ∧
    (∀ i < n, (x.getD i []).length = (z.getD i []).length ∧
      (Q.getD i []).length = (z.getD i []).length ∧
      (B.getD i []).length = (z.getD i []).length ∧
      2 ≤ (z.getD i []).length) ∧
    (∀ i < n, pairwiseLt (x.getD i []) = true) ∧
    (∀ i < n, ∀ q ∈ Q.getD i [], 0 ≤ q) ∧
    (∀ i < n, ∀ b ∈ B.getD i [], 0 ≤ b) ∧
    S0.length = ((List.range n).filter (fun i => (up.getD i []).isEmpty)).length)

/-- Number of headwater segments with identifier below `i`: the rank at
which segment `i` consumes its entry of the `S0` list. -/
def headCountBefore (up : List (List ℕ)) (i : ℕ) : ℕ :=
  ((List.range i).filter (fun j => (up.getD j []).isEmpty)).length

/-- Construct segment `i` from the initialization inputs: a headwater
segment takes its `S0` entry in increasing order of segment identifier. -/
def buildSeg (S0 : List ℚ) (up down : List (List ℕ))
    (x z Q B : List (List ℚ)) (i : ℕ) : Seg :=
  { x := x.getD i [], z := z.getD i [], Q := Q.getD i [], B := B.getD i [],
    S0 := if (up.getD i []).isEmpty then some (S0.getD (headCountBefore up i) 0)
          else none,
    upstreamIDs := up.getD i [], downstreamIDs := down.getD i [] }

/-- Construct the validated network from the initialization inputs. -/
def buildNetwork (x_bl z_bl : ℚ) (S0 : List ℚ) (up down : List (List ℕ))
    (x z Q B : List (List ℚ)) : Network :=
  { segs := (List.range up.length).map (buildSeg S0 up down x z Q B),
    x_bl := x_bl, z_bl := z_bl }

/-- Modelled from the spec: `Network.initialize` (§4.3): validate the
topology first (TopologyError), then the per-segment configuration
(ConfigurationError), then construct the segment objects. -/
def initNetwork (x_bl z_bl : ℚ) (S0 : List ℚ) (up down : List (List ℕ))
    (x z Q B : List (List ℚ)) : Except Err Network :=
  if topologyOK up down = true then
    if configOK S0 up x z Q B = true then
      .ok (buildNetwork x_bl z_bl S0 up down x z Q B)
    else .error .configurationError
  else .error .topologyError

/-- The structural invariants a validated network satisfies, as the step
theorems use them: consistent array lengths, at least two nodes per segment,
strictly increasing positions, at most one downstream link, and in-range
neighbor identifiers. -/
def WellFormed (net : Network) : Prop :=
  ∀ sid < net.nseg,
    (net.seg sid).x.length = numel net sid ∧
    (net.seg sid).Q.length = numel net sid ∧
    (net.seg sid).B.length = numel net sid ∧
    2 ≤ numel net sid ∧
    pairwiseLt (net.seg sid).x = true ∧
    (net.seg sid).downstreamIDs.length ≤ 1 ∧
    (∀ u ∈ (net.seg sid).upstreamIDs, u < net.nseg) ∧
    (∀ d ∈ (net.seg sid).downstreamIDs, d < net.nseg)

instance (net : Network) : Decidable (WellFormed net) := by
  unfold WellFormed; infer_instance

/-- The sediment-flux proxy leaving the downstream end of segment `u`:
diffusion coefficient times the one-sided slope over the last interval. -/
def fluxOut (net : Network) (u : ℕ) : ℚ :=
  Dcoef (net.seg u) (numel net u - 1) *
    ((zAt net u (numel net u - 2) - zAt net u (numel net u - 1)) /
     (xAt net u (numel net u - 1) - xAt net u (numel net u - 2)))

/-- The sediment-flux proxy entering the upstream end of segment `d`. -/
def fluxIn (net : Network) (d : ℕ) : ℚ :=
  Dcoef (net.seg d) 0 *
    ((zAt net d 0 - zAt net d 1) / (xAt net d 1 - xAt net d 0))

/-- The discrete steady state: along every segment the flux proxy is uniform
(each interior node sees the same transport in and out, i.e. each slope is
the transport-capacity-balanced equilibrium slope), every boundary condition
already holds, and every junction already satisfies elevation continuity and
flux conservation.  Independent of the timestep. -/
def Equilibrium (net : Network) : Prop :=
  ∀ sid < net.nseg,
    (∀ i < numel net sid, 0 < i → i + 1 < numel net sid →
      (Dcoef (net.seg sid) (i-1) + Dcoef (net.seg sid) i) / 2 *
        ((zAt net sid (i-1) - zAt net sid i) / (xAt net sid i - xAt net sid (i-1))) =
      (Dcoef (net.seg sid) i + Dcoef (net.seg sid) (i+1)) / 2 *
        ((zAt net sid i - zAt net sid (i+1)) / (xAt net sid (i+1) - xAt net sid i))) ∧
    ((net.seg sid).upstreamIDs = [] →
      zAt net sid 0 - zAt net sid 1 =
        ((net.seg sid).S0.getD 0) * (xAt net sid 1 - xAt net sid 0)) ∧
    ((net.seg sid).upstreamIDs ≠ [] →
      (((net.seg sid).upstreamIDs.map (fluxOut net)).sum = fluxIn net sid)) ∧
    ((net.seg sid).downstreamIDs = [] → zAt net sid (numel net sid - 1) = net.z_bl) ∧
    (∀ d ∈ (net.seg sid).downstreamIDs, zAt net sid (numel net sid - 1) = zAt net d 0)

instance (net : Network) : Decidable (Equilibrium net) := by
  unfold Equilibrium; infer_instance

instance : DecidableEq (Except Err Network) := fun a b =>
  match a, b with
  | .ok n1, .ok n2 => decidable_of_iff (n1 = n2) (by simp)
  | .error e1, .error e2 => decidable_of_iff (e1 = e2) (by simp)
  | .ok _, .error _ => .isFalse (by simp)
  | .error _, .ok _ => .isFalse (by simp)

/-- There is an outlet that every segment reaches by following downstream
links (within as many links as there are segments); such an outlet is
automatically unique because an outlet can only reach itself. -/
def ReachesUniqueOutlet (down : List (List ℕ)) (n : ℕ) : Prop :=
  ∃ o, o < n ∧ down.getD o [] = [] ∧
    ∀ s < n, ∃ k, k ≤ n ∧ stepIter down k s = some o

/-- Downstream-link iteration through a constructed network's adjacency. -/
def netIter (net : Network) : ℕ → ℕ → Option ℕ :=
  stepIter (net.segs.map (fun s => s.downstreamIDs))

/-- The concatenated elevation state of the whole network, in the same node
order as the global unknown vector. -/
def flatZ (net : Network) : Vec := (net.segs.map Seg.z).flatten

/-- The network a successful `advance_one_step` produces (default network
when the step fails); lets concrete runs be named without partial access. -/
def stepResult (net : Network) (dt : ℚ) : Network :=
  match advance_one_step net dt with
  | .ok n => n
  | .error _ => default

/-- Concrete confluence: two 2-node headwater segments joining one 2-node
outlet segment, mirroring the tributary merge of the example driver. -/
def junctionNet : Network :=
  ⟨[⟨[0, 1], [1, 1], [1, 1], [1, 1], some (1/2), [], [2]⟩,
    ⟨[0, 1], [1, 1], [1, 1], [1, 1], some (1/2), [], [2]⟩,
    ⟨[2, 3], [1, 0], [2, 2], [1, 1], none, [0, 1], []⟩], 4, 0⟩

/-- Concrete degenerate network with zero discharge everywhere: its junction
flux row is identically zero, so the assembled system is singular. -/
def singularNet : Network :=
  ⟨[⟨[0, 1], [0, 0], [0, 0], [1, 1], some 1, [], [1]⟩,
    ⟨[2, 3], [0, 0], [0, 0], [1, 1], none, [0], []⟩], 4, 0⟩

/-- Concrete 3-node single-segment network (both headwater and outlet). -/
def threeNodeNet : Network :=
  ⟨[⟨[0, 1, 2], [0, 0, 0], [1, 1, 1], [1, 1, 1], some 1, [], []⟩], 3, 0⟩

/-- Concrete 3-node single-segment network already at its equilibrium
profile: uniform slope matching `S0`, outlet at base level. -/
def equilibriumNet : Network :=
  ⟨[⟨[0, 1, 2], [2, 1, 0], [1, 1, 1], [1, 1, 1], some 1, [], []⟩], 3, 0⟩

/-- The single-headwater-segment scenario of the spec: 5 nodes, uniform
discharge 10, uniform width 100, upstream slope 1/100, base level 0. -/
def headwaterScenarioInit : Except Err Network :=
  initNetwork 12500 0 [1/100] [[]] [[]]
    [[0, 2500, 5000, 7500, 10000]] [[0, 0, 0, 0, 0]]
    [[10, 10, 10, 10, 10]] [[100, 100, 100, 100, 100]]

/-- The initialized single-headwater-segment network. -/
def headwaterScenarioNet : Network :=
  match headwaterScenarioInit with
  | .ok n => n
  | .error _ => default

/-- That network after one implicit step with the driver's large timestep
(ten half-centuries of seconds). -/
def headwaterScenarioStep : Network := stepResult headwaterScenarioNet 315000000

/-- The upstream-slope list of the example driver: one entry per headwater
segment only (three entries for the five-segment network). -/
def driverS0 : List ℚ := [3/100, 3/200, 1/100]

/-- The example driver's upstream adjacency lists. -/
def driverUps : List (List ℕ) := [[], [], [0, 1], [], [2, 3]]

/-- The example driver's downstream adjacency lists. -/
def driverDowns : List (List ℕ) := [[2], [2], [4], [4], []]

/-- The example driver's along-channel position arrays (metres). -/
def driverX : List (List ℚ) :=
  [[2000, 4000, 6500, 9000, 10000],
   [0, 1000, 2000, 3000, 6000, 8000, 10500],
   [12000, 15000, 18000, 20000],
   [2000, 6000, 8000, 12000, 14000, 16000, 18000, 20000],
   [23000, 24000, 27000, 29000, 29500, 30000]]

/-- The example driver's initial elevation arrays (all zero). -/
def driverZ : List (List ℚ) :=
  [[0,0,0,0,0], [0,0,0,0,0,0,0], [0,0,0,0], [0,0,0,0,0,0,0,0], [0,0,0,0,0,0]]

/-- The example driver's discharge arrays (constant per segment). -/
def driverQ : List (List ℚ) :=
  [[5,5,5,5,5], [10,10,10,10,10,10,10], [15,15,15,15],
   [10,10,10,10,10,10,10,10], [25,25,25,25,25,25]]

/-- The example driver's width arrays (uniform 100). -/
def driverB : List (List ℚ) :=
  [[100,100,100,100,100], [100,100,100,100,100,100,100], [100,100,100,100],
   [100,100,100,100,100,100,100,100], [100,100,100,100,100,100]]

/-- The example driver's five-segment initialization call, with its exact
topology, geometry, discharge, width and boundary data. -/
def driverInitResult : Except Err Network :=
  initNetwork 32000 0 driverS0 driverUps driverDowns driverX driverZ driverQ
    driverB

/-- The example driver's network as initialized. -/
def driverNet : Network :=
  match driverInitResult with
  | .ok n => n
  | .error _ => default

lemma length_smulVec (c : ℚ) (r : Vec) : (smulVec c r).length = r.length := by
  simp [smulVec]

lemma length_addVec (u v : Vec) : (addVec u v).length = min u.length v.length := by
  simp [addVec]

lemma length_zeroVec (n : ℕ) : (zeroVec n).length = n := by
  simp [zeroVec]

lemma length_unitVec {N i : ℕ} (c : ℚ) (h : i < N) : (unitVec N i c).length = N := by
  simp only [unitVec, List.length_append, List.length_cons, length_zeroVec]
  omega

lemma dot_nil_right (r : Vec) : dot r [] = 0 := by
  simp [dot]

lemma dot_nil_left (v : Vec) : dot [] v = 0 := by
  simp [dot]

lemma dot_cons_cons (a b : ℚ) (r v : Vec) :
    dot (a :: r) (b :: v) = a * b + dot r v := by
  simp [dot]

lemma dot_zeroVec (n : ℕ) (v : Vec) : dot (zeroVec n) v = 0 := by
  induction n generalizing v with
  | zero => simp [zeroVec, dot]
  | succ m ih =>
    cases v with
    | nil => exact dot_nil_right _
    | cons b t =>
      rw [show zeroVec (m+1) = 0 :: zeroVec m from rfl, dot_cons_cons, ih]
      ring

lemma dot_zero_append (k : ℕ) (w v : Vec) :
    dot (zeroVec k ++ w) v = dot w (v.drop k) := by
  induction k generalizing v with
  | zero => simp [zeroVec]
  | succ m ih =>
    cases v with
    | nil =>
      rw [List.drop_nil, dot_nil_right, dot_nil_right]
    | cons b t =>
      rw [show zeroVec (m+1) ++ w = 0 :: (zeroVec m ++ w) from rfl,
        dot_cons_cons, ih, List.drop_succ_cons]
      ring

lemma dot_unitVec (N i : ℕ) (c : ℚ) (v : Vec) :
    dot (unitVec N i c) v = c * v.getD i 0 := by
  rw [unitVec, dot_zero_append]
  cases hd : v.drop i with
  | nil =>
    rw [dot_nil_right]
    have hlen : v.length ≤ i := by
      have := congrArg List.length hd
      simp at this
      omega
    rw [List.getD_eq_default _ _ hlen]
    ring
  | cons b t =>
    have hi : i < v.length := by
      by_contra hle
      rw [List.drop_eq_nil_of_le (by omega)] at hd
      exact List.noConfusion hd
    rw [dot_cons_cons, dot_zeroVec, List.getD_eq_getElem _ _ hi]
    have hb : (v.drop i).get ⟨0, by simp [hd]⟩ = b := by simp [hd]
    rw [List.get_eq_getElem, List.getElem_drop v] at hb
    simp only [Nat.add_zero] at hb
    rw [hb]
    ring

lemma dot_addVec {u w : Vec} (v : Vec) (h : u.length = w.length) :
    dot (addVec u w) v = dot u v + dot w v := by
  induction u generalizing w v with
  | nil =>
    cases w with
    | nil => simp [addVec, dot]
    | cons b t => simp at h
  | cons a u ih =>
    cases w with
    | nil => simp at h
    | cons b t =>
      cases v with
      | nil => simp [dot_nil_right, addVec]
      | cons q qt =>
        rw [show addVec (a :: u) (b :: t) = (a + b) :: addVec u t from rfl,
          dot_cons_cons, dot_cons_cons, dot_cons_cons, ih qt (by simpa using h)]
        ring

lemma dot_smulVec (c : ℚ) (r v : Vec) : dot (smulVec c r) v = c * dot r v := by
  induction r generalizing v with
  | nil => simp [smulVec, dot_nil_left]
  | cons a t ih =>
    cases v with
    | nil => simp [dot_nil_right]
    | cons b bt =>
      rw [show smulVec c (a :: t) = (c * a) :: smulVec c t from rfl,
        dot_cons_cons, dot_cons_cons, ih]
      ring

lemma length_linComb {N : ℕ} (cs : Vec) {rows : Mat}
    (h : ∀ r ∈ rows, r.length = N) : (linComb N cs rows).length = N := by
  induction cs generalizing rows with
  | nil => simp [linComb, length_zeroVec]
  | cons c cs ih =>
    cases rows with
    | nil => simp [linComb, length_zeroVec]
    | cons r rs =>
      have hr : r.length = N := h r (by simp)
      have hrs : ∀ r ∈ rs, r.length = N := fun r hm => h r (by simp [hm])
      rw [show linComb N (c :: cs) (r :: rs) = addVec (smulVec c r) (linComb N cs rs)
        from rfl, length_addVec, length_smulVec, hr, ih hrs]
      omega

lemma dot_linComb {N : ℕ} (cs : Vec) {rows : Mat} (v : Vec)
    (h : ∀ r ∈ rows, r.length = N) :
    dot (linComb N cs rows) v = dot cs (mulVec rows v) := by
  induction cs generalizing rows with
  | nil => simp [linComb, dot_zeroVec, dot_nil_left]
  | cons c cs ih =>
    cases rows with
    | nil => simp [linComb, dot_zeroVec, mulVec, dot_nil_right]
    | cons r rs =>
      have hr : r.length = N := h r (by simp)
      have hrs : ∀ r ∈ rs, r.length = N := fun r hm => h r (by simp [hm])
      rw [show linComb N (c :: cs) (r :: rs) = addVec (smulVec c r) (linComb N cs rs)
        from rfl,
        dot_addVec v (by rw [length_smulVec, hr, length_linComb cs hrs]),
        dot_smulVec,
        show mulVec (r :: rs) v = dot r v :: mulVec rs v from rfl,
        dot_cons_cons, ih hrs]

lemma mulVec_matMul {N : ℕ} (A : Mat) {B : Mat} (v : Vec)
    (h : ∀ r ∈ B, r.length = N) :
    mulVec (matMul N A B) v = mulVec A (mulVec B v) := by
  simp only [matMul, mulVec, List.map_map]
  exact List.map_congr_left (fun r _ => dot_linComb r v h)

lemma getD_range_map {α : Type} {n i : ℕ} (f : ℕ → α) (d : α) (h : i < n) :
    ((List.range n).map f).getD i d = f i := by
  rw [List.getD_eq_getElem _ _ (by simpa using h), List.getElem_map,
    List.getElem_range]

lemma range_map_getD {α : Type} (l : List α) (d : α) :
    (List.range l.length).map (fun i => l.getD i d) = l := by
  induction l with
  | nil => simp
  | cons a t ih =>
    rw [show (a :: t).length = t.length + 1 from rfl, List.range_succ_eq_map,
      List.map_cons, List.map_map]
    have h2 : ((fun i => (a :: t).getD i d) ∘ Nat.succ) = (fun i => t.getD i d) := by
      funext i; simp
    rw [h2, ih]
    simp

lemma mulVec_idMat {N : ℕ} {v : Vec} (h : v.length = N) :
    mulVec (idMat N) v = v := by
  simp only [idMat, mulVec, List.map_map]
  have : ((fun r => dot r v) ∘ fun i => unitVec N i 1) = fun i => v.getD i 0 := by
    funext i
    simp [dot_unitVec]
  rw [this, ← h, range_map_getD]

lemma length_mulVec (M : Mat) (v : Vec) : (mulVec M v).length = M.length := by
  simp [mulVec]

lemma squareWF_spec {N : ℕ} {M : Mat} (h : squareWF N M = true) :
    M.length = N ∧ ∀ r ∈ M, r.length = N := by
  simp only [squareWF, Bool.and_eq_true, beq_iff_eq, List.all_eq_true] at h
  exact ⟨h.1, fun r hr => by simpa using h.2 r hr⟩

lemma solveLinear_some {N : ℕ} {A : Mat} {b xs : Vec}
    (h : solveLinear N A b = some xs) :
    mulVec A xs = b ∧ xs.length = N ∧
      ∀ y, y.length = N → mulVec A y = b → y = xs := by
  unfold solveLinear at h
  split at h
  · exact absurd h (by simp)
  rename_i Binv hInv
  split at h
  case isFalse => exact absurd h (by simp)
  rename_i hc
  obtain ⟨hA, hB, hb, hAB, hBA⟩ := hc
  have hxs : xs = mulVec Binv b := (Option.some_inj.mp h).symm
  have hBrows := (squareWF_spec hB).2
  have hArows := (squareWF_spec hA).2
  constructor
  · rw [hxs, ← mulVec_matMul A b hBrows, hAB, mulVec_idMat hb]
  constructor
  · rw [hxs, length_mulVec, (squareWF_spec hB).1]
  · intro y hy hAy
    rw [hxs, ← hAy, ← mulVec_matMul Binv y hArows, hBA, mulVec_idMat hy]

lemma seg_eq_getElem {net : Network} {sid : ℕ} (h : sid < net.nseg) :
    net.seg sid = net.segs.get ⟨sid, h⟩ := by
  rw [Network.seg, List.get_eq_getElem, List.getD_eq_getElem _ _ h]

lemma totalN_split {net : Network} {sid : ℕ} (h : sid < net.nseg) :
    totalN net = offset net sid +
      (numel net sid + ((net.segs.drop (sid + 1)).map (fun s => s.z.length)).sum) := by
  have hsplit := List.take_append_drop sid net.segs
  have hdrop : net.segs.drop sid =
      net.segs.get ⟨sid, h⟩ :: net.segs.drop (sid + 1) := by
    rw [List.get_eq_getElem]
    exact List.drop_eq_getElem_cons h
  calc totalN net = ((net.segs.take sid ++ net.segs.drop sid).map
        (fun s => s.z.length)).sum := by rw [hsplit, totalN]
    _ = _ := by
      rw [List.map_append, List.sum_append, hdrop, List.map_cons, List.sum_cons,
        offset, numel, seg_eq_getElem h]

lemma offset_add_le {net : Network} {sid : ℕ} (h : sid < net.nseg) :
    offset net sid + numel net sid ≤ totalN net := by
  rw [totalN_split h]; omega

lemma gidx_lt_totalN {net : Network} {sid i : ℕ} (h1 : sid < net.nseg)
    (h2 : i < numel net sid) : gidx net sid i < totalN net := by
  rw [gidx]
  have := offset_add_le h1
  omega

lemma mem_equations {net : Network} {dt : ℚ} {sid i : ℕ} (h1 : sid < net.nseg)
    (h2 : i < numel net sid) : rowFor net dt sid i ∈ equations net dt := by
  rw [equations]
  exact List.mem_flatMap.mpr ⟨sid, List.mem_range.mpr h1,
    List.mem_map.mpr ⟨i, List.mem_range.mpr h2, rfl⟩⟩

lemma equations_elim {net : Network} {dt : ℚ} {e : Vec × ℚ}
    (h : e ∈ equations net dt) :
    ∃ sid i, sid < net.nseg ∧ i < numel net sid ∧ e = rowFor net dt sid i := by
  rw [equations] at h
  obtain ⟨sid, hsid, hmem⟩ := List.mem_flatMap.mp h
  obtain ⟨i, hi, he⟩ := List.mem_map.mp hmem
  exact ⟨sid, i, List.mem_range.mp hsid, List.mem_range.mp hi, he.symm⟩

lemma map_eq_map_mem {α β : Type} {f g : α → β} {l : List α}
    (h : l.map f = l.map g) : ∀ a ∈ l, f a = g a := by
  induction l with
  | nil => intro a ha; exact absurd ha (by simp)
  | cons b t ih =>
    simp only [List.map_cons, List.cons.injEq] at h
    intro a ha
    rcases List.mem_cons.mp ha with rfl | hmem
    · exact h.1
    · exact ih h.2 a hmem

lemma advance_ok_elim {net net' : Network} {dt : ℚ}
    (h : advance_one_step net dt = .ok net') :
    ∃ xs, solveLinear (totalN net) ((equations net dt).map Prod.fst)
        ((equations net dt).map Prod.snd) = some xs ∧
      net' = applySolution net xs := by
  unfold advance_one_step at h
  split at h
  · exact absurd h (by simp)
  · rename_i xs hs
    refine ⟨xs, hs, ?_⟩
    cases h
    rfl

lemma advance_error_elim {net : Network} {dt : ℚ}
    (h : solveLinear (totalN net) ((equations net dt).map Prod.fst)
        ((equations net dt).map Prod.snd) = none) :
    advance_one_step net dt = .error .numericalError := by
  unfold advance_one_step
  rw [h]

lemma rows_satisfied {net : Network} {dt : ℚ} {xs : Vec}
    (hs : solveLinear (totalN net) ((equations net dt).map Prod.fst)
        ((equations net dt).map Prod.snd) = some xs) :
    ∀ e ∈ equations net dt, dot e.1 xs = e.2 := by
  have hsat := (solveLinear_some hs).1
  have : (equations net dt).map (fun e => dot e.1 xs) =
      (equations net dt).map Prod.snd := by
    calc (equations net dt).map (fun e => dot e.1 xs)
        = mulVec ((equations net dt).map Prod.fst) xs := by
          rw [mulVec, List.map_map]; rfl
      _ = (equations net dt).map Prod.snd := hsat
  exact map_eq_map_mem this

lemma xs_length {net : Network} {dt : ℚ} {xs : Vec}
    (hs : solveLinear (totalN net) ((equations net dt).map Prod.fst)
        ((equations net dt).map Prod.snd) = some xs) :
    xs.length = totalN net := (solveLinear_some hs).2.1

lemma nseg_applySolution (net : Network) (xs : Vec) :
    (applySolution net xs).nseg = net.nseg := by
  simp [applySolution, Network.nseg]

lemma z_bl_applySolution (net : Network) (xs : Vec) :
    (applySolution net xs).z_bl = net.z_bl := rfl

lemma seg_applySolution {net : Network} (xs : Vec) {sid : ℕ} (h : sid < net.nseg) :
    (applySolution net xs).seg sid =
      { net.seg sid with
        z := (xs.drop (offset net sid)).take (net.seg sid).z.length } := by
  rw [show (applySolution net xs).seg sid =
    ((List.range net.nseg).map (fun sid =>
      { net.seg sid with
        z := (xs.drop (offset net sid)).take (net.seg sid).z.length })).getD sid
      default from rfl]
  exact getD_range_map _ _ h

lemma seg_applySolution_oob {net : Network} (xs : Vec) {sid : ℕ}
    (h : ¬ sid < net.nseg) : (applySolution net xs).seg sid = default := by
  rw [Network.seg, List.getD_eq_default]
  simpa [applySolution] using Nat.le_of_not_lt h

lemma numel_applySolution {net : Network} {xs : Vec} (hlen : xs.length = totalN net)
    {sid : ℕ} (h : sid < net.nseg) :
    numel (applySolution net xs) sid = numel net sid := by
  rw [numel, seg_applySolution xs h]
  simp only [List.length_take, List.length_drop]
  have := offset_add_le h
  rw [hlen, numel] at *
  omega

lemma zAt_applySolution {net : Network} {xs : Vec} (hlen : xs.length = totalN net)
    {sid i : ℕ} (h1 : sid < net.nseg) (h2 : i < numel net sid) :
    zAt (applySolution net xs) sid i = xs.getD (gidx net sid i) 0 := by
  rw [zAt, seg_applySolution xs h1]
  have hoff := offset_add_le h1
  have hidx : offset net sid + i < xs.length := by rw [hlen]; rw [numel] at *; omega
  have hlt : i < ((xs.drop (offset net sid)).take (net.seg sid).z.length).length := by
    simp only [List.length_take, List.length_drop]
    rw [numel] at *; omega
  rw [show ({ net.seg sid with
        z := (xs.drop (offset net sid)).take (net.seg sid).z.length } : Seg).z =
      (xs.drop (offset net sid)).take (net.seg sid).z.length from rfl,
    List.getD_eq_getElem _ _ hlt, List.getElem_take, List.getElem_drop,
    gidx, List.getD_eq_getElem _ _ hidx]

lemma xAt_applySolution {net : Network} (xs : Vec) {sid : ℕ} (h : sid < net.nseg)
    (i : ℕ) : xAt (applySolution net xs) sid i = xAt net sid i := by
  rw [xAt, xAt, seg_applySolution xs h]

lemma Dcoef_applySolution {net : Network} (xs : Vec) {sid : ℕ} (h : sid < net.nseg)
    (i : ℕ) : Dcoef ((applySolution net xs).seg sid) i = Dcoef (net.seg sid) i := by
  rw [Dcoef, Dcoef, seg_applySolution xs h]

lemma pairwiseLt_getD {l : List ℚ} (h : pairwiseLt l = true) :
    ∀ {i : ℕ}, i + 1 < l.length → l.getD i 0 < l.getD (i+1) 0 := by
  induction l with
  | nil => intro i hi; simp at hi
  | cons a t ih =>
    cases t with
    | nil => intro i hi; simp at hi
    | cons b t2 =>
      rw [show pairwiseLt (a :: b :: t2) = (decide (a < b) && pairwiseLt (b :: t2))
        from rfl, Bool.and_eq_true, decide_eq_true_eq] at h
      intro i hi
      match i with
      | 0 => simpa using h.1
      | j + 1 =>
        have := ih h.2 (i := j) (by simpa using hi)
        simpa using this

lemma length_foldr_addVec {N : ℕ} {rows : Mat} (h : ∀ r ∈ rows, r.length = N) :
    (rows.foldr addVec (zeroVec N)).length = N := by
  induction rows with
  | nil => simp [length_zeroVec]
  | cons r rs ih =>
    rw [List.foldr_cons, length_addVec, h r (by simp),
      ih (fun r hm => h r (by simp [hm]))]
    omega

lemma dot_foldr_addVec {N : ℕ} {rows : Mat} (h : ∀ r ∈ rows, r.length = N)
    (y : Vec) :
    dot (rows.foldr addVec (zeroVec N)) y = (rows.map (fun r => dot r y)).sum := by
  induction rows with
  | nil => simp [dot_zeroVec]
  | cons r rs ih =>
    rw [List.foldr_cons,
      dot_addVec y (by rw [h r (by simp),
        length_foldr_addVec (fun r hm => h r (by simp [hm]))]),
      List.map_cons, List.sum_cons, ih (fun r hm => h r (by simp [hm]))]

lemma dot_outRow (net : Network) (sid : ℕ) (y : Vec) :
    dot (outRow net sid).1 y = y.getD (gidx net sid (numel net sid - 1)) 0 := by
  rw [outRow, dot_unitVec]
  ring

lemma dot_headRow {net : Network} {sid : ℕ} (h1 : sid < net.nseg)
    (hn : 2 ≤ numel net sid) (y : Vec) :
    dot (headRow net sid).1 y =
      y.getD (gidx net sid 0) 0 - y.getD (gidx net sid 1) 0 := by
  have g0 : gidx net sid 0 < totalN net := gidx_lt_totalN h1 (by omega)
  have g1 : gidx net sid 1 < totalN net := gidx_lt_totalN h1 (by omega)
  rw [show (headRow net sid).1 = addVec (unitVec (totalN net) (gidx net sid 0) 1)
    (unitVec (totalN net) (gidx net sid 1) (-1)) from rfl,
    dot_addVec y (by rw [length_unitVec _ g0, length_unitVec _ g1]),
    dot_unitVec, dot_unitVec]
  ring

lemma dot_contRow {net : Network} {sid d : ℕ} (h1 : sid < net.nseg)
    (hn : 1 ≤ numel net sid) (hd : d < net.nseg) (hnd : 1 ≤ numel net d)
    (y : Vec) :
    dot (contRow net sid d).1 y =
      y.getD (gidx net sid (numel net sid - 1)) 0 - y.getD (gidx net d 0) 0 := by
  have g0 : gidx net sid (numel net sid - 1) < totalN net :=
    gidx_lt_totalN h1 (by omega)
  have g1 : gidx net d 0 < totalN net := gidx_lt_totalN hd (by omega)
  rw [show (contRow net sid d).1 =
    addVec (unitVec (totalN net) (gidx net sid (numel net sid - 1)) 1)
      (unitVec (totalN net) (gidx net d 0) (-1)) from rfl,
    dot_addVec y (by rw [length_unitVec _ g0, length_unitVec _ g1]),
    dot_unitVec, dot_unitVec]
  ring

lemma length_fluxRowEnd {net : Network} {u : ℕ} (hu : u < net.nseg)
    (hnu : 2 ≤ numel net u) : (fluxRowEnd net u).length = totalN net := by
  have g0 : gidx net u (numel net u - 2) < totalN net := gidx_lt_totalN hu (by omega)
  have g1 : gidx net u (numel net u - 1) < totalN net := gidx_lt_totalN hu (by omega)
  rw [fluxRowEnd, length_addVec, length_unitVec _ g0, length_unitVec _ g1]
  omega

lemma dot_fluxRowEnd {net : Network} {u : ℕ} (hu : u < net.nseg)
    (hnu : 2 ≤ numel net u) (y : Vec) :
    dot (fluxRowEnd net u) y = fluxCoefEnd net u *
      (y.getD (gidx net u (numel net u - 2)) 0 -
       y.getD (gidx net u (numel net u - 1)) 0) := by
  have g0 : gidx net u (numel net u - 2) < totalN net := gidx_lt_totalN hu (by omega)
  have g1 : gidx net u (numel net u - 1) < totalN net := gidx_lt_totalN hu (by omega)
  rw [fluxRowEnd,
    dot_addVec y (by rw [length_unitVec _ g0, length_unitVec _ g1]),
    dot_unitVec, dot_unitVec]
  ring

lemma dot_junctionRow {net : Network} {d : ℕ} (hd : d < net.nseg)
    (hnd : 2 ≤ numel net d)
    (hups : ∀ u ∈ (net.seg d).upstreamIDs, u < net.nseg ∧ 2 ≤ numel net u)
    (y : Vec) :
    dot (junctionRow net d).1 y =
      (((net.seg d).upstreamIDs.map (fun u => fluxCoefEnd net u *
        (y.getD (gidx net u (numel net u - 2)) 0 -
         y.getD (gidx net u (numel net u - 1)) 0))).sum) -
      fluxCoefStart net d * (y.getD (gidx net d 0) 0 - y.getD (gidx net d 1) 0) := by
  have g0 : gidx net d 0 < totalN net := gidx_lt_totalN hd (by omega)
  have g1 : gidx net d 1 < totalN net := gidx_lt_totalN hd (by omega)
  have hlens : ∀ r ∈ (net.seg d).upstreamIDs.map (fluxRowEnd net),
      r.length = totalN net := by
    intro r hr
    obtain ⟨u, hu, rfl⟩ := List.mem_map.mp hr
    exact length_fluxRowEnd (hups u hu).1 (hups u hu).2
  rw [show (junctionRow net d).1 =
    addVec (((net.seg d).upstreamIDs.map (fluxRowEnd net)).foldr addVec
        (zeroVec (totalN net)))
      (addVec (unitVec (totalN net) (gidx net d 0) (-(fluxCoefStart net d)))
              (unitVec (totalN net) (gidx net d 1) (fluxCoefStart net d)))
    from rfl,
    dot_addVec y (by
      rw [length_foldr_addVec hlens, length_addVec, length_unitVec _ g0,
        length_unitVec _ g1]
      omega),
    dot_addVec y (by rw [length_unitVec _ g0, length_unitVec _ g1]),
    dot_foldr_addVec hlens, dot_unitVec, dot_unitVec, List.map_map]
  have : ((fun r => dot r y) ∘ fluxRowEnd net) =
      fun u => dot (fluxRowEnd net u) y := rfl
  rw [this]
  have hcong : ((net.seg d).upstreamIDs.map (fun u => dot (fluxRowEnd net u) y)) =
      ((net.seg d).upstreamIDs.map (fun u => fluxCoefEnd net u *
        (y.getD (gidx net u (numel net u - 2)) 0 -
         y.getD (gidx net u (numel net u - 1)) 0))) :=
    List.map_congr_left (fun u hu => dot_fluxRowEnd (hups u hu).1 (hups u hu).2 y)
  rw [hcong]
  ring

lemma dot_interiorRow {net : Network} {dt : ℚ} {sid i : ℕ} (h1 : sid < net.nseg)
    (hi0 : 0 < i) (hi1 : i + 1 < numel net sid) (y : Vec) :
    dot (interiorRow net dt sid i).1 y =
      -(amCoef net dt sid i) * y.getD (gidx net sid (i-1)) 0 +
      (1 + amCoef net dt sid i + apCoef net dt sid i) * y.getD (gidx net sid i) 0 +
      -(apCoef net dt sid i) * y.getD (gidx net sid (i+1)) 0 := by
  have g0 : gidx net sid (i-1) < totalN net := gidx_lt_totalN h1 (by omega)
  have g1 : gidx net sid i < totalN net := gidx_lt_totalN h1 (by omega)
  have g2 : gidx net sid (i+1) < totalN net := gidx_lt_totalN h1 (by omega)
  rw [show (interiorRow net dt sid i).1 =
    addVec (unitVec (totalN net) (gidx net sid (i-1)) (-(amCoef net dt sid i)))
     (addVec (unitVec (totalN net) (gidx net sid i)
         (1 + amCoef net dt sid i + apCoef net dt sid i))
       (unitVec (totalN net) (gidx net sid (i+1)) (-(apCoef net dt sid i))))
    from rfl,
    dot_addVec y (by
      rw [length_unitVec _ g0, length_addVec, length_unitVec _ g1,
        length_unitVec _ g2]
      omega),
    dot_addVec y (by rw [length_unitVec _ g1, length_unitVec _ g2]),
    dot_unitVec, dot_unitVec, dot_unitVec]
  ring

lemma rowFor_head {net : Network} {dt : ℚ} {sid : ℕ}
    (h : (net.seg sid).upstreamIDs = []) :
    rowFor net dt sid 0 = headRow net sid := by
  rw [rowFor, if_pos rfl, if_pos h]

lemma rowFor_junction {net : Network} {dt : ℚ} {sid : ℕ}
    (h : ¬ (net.seg sid).upstreamIDs = []) :
    rowFor net dt sid 0 = junctionRow net sid := by
  rw [rowFor, if_pos rfl, if_neg h]

lemma rowFor_last_out {net : Network} {dt : ℚ} {sid : ℕ}
    (hn : 2 ≤ numel net sid) (h : (net.seg sid).downstreamIDs = []) :
    rowFor net dt sid (numel net sid - 1) = outRow net sid := by
  rw [rowFor, if_neg (by omega), if_pos rfl, h]

lemma rowFor_last_cont {net : Network} {dt : ℚ} {sid d : ℕ} {rest : List ℕ}
    (hn : 2 ≤ numel net sid) (h : (net.seg sid).downstreamIDs = d :: rest) :
    rowFor net dt sid (numel net sid - 1) = contRow net sid d := by
  rw [rowFor, if_neg (by omega), if_pos rfl, h]

lemma rowFor_interior {net : Network} {dt : ℚ} {sid i : ℕ} (hi0 : 0 < i)
    (hi1 : i + 1 < numel net sid) :
    rowFor net dt sid i = interiorRow net dt sid i := by
  rw [rowFor, if_neg (by omega), if_neg (by omega)]

/-- C1: for every well-formed network, after a successful `advance_one_step`
the elevation at the downstream-most node of each segment equals the
elevation at the upstream-most node of its downstream segment (exactly, in
this exact-arithmetic model, hence within any solver tolerance). -/
theorem C1_elevation_continuity {net net' : Network} {dt : ℚ}
    (hwf : WellFormed net) (hstep : advance_one_step net dt = .ok net')
    {sid d : ℕ} (hsid : sid < net.nseg)
    (hd : d ∈ (net.seg sid).downstreamIDs) :
    zAt net' sid (numel net sid - 1) = zAt net' d 0 := by
  obtain ⟨xs, hs, rfl⟩ := advance_ok_elim hstep
  have hlen := xs_length hs
  obtain ⟨-, -, -, hn, -, hdlen, -, hdownR⟩ := hwf sid hsid
  have hdlt : d < net.nseg := hdownR d hd
  obtain ⟨-, -, -, hnd, -, -, -, -⟩ := hwf d hdlt
  have hone : (net.seg sid).downstreamIDs = [d] := by
    cases hds : (net.seg sid).downstreamIDs with
    | nil => rw [hds] at hd; exact absurd hd (by simp)
    | cons a t =>
      rw [hds] at hdlen hd
      cases t with
      | nil =>
        rcases List.mem_singleton.mp hd with rfl
        rfl
      | cons b t2 => simp at hdlen
  have hrow := rows_satisfied hs _
    (mem_equations hsid (i := numel net sid - 1) (by omega))
  rw [rowFor_last_cont hn hone] at hrow
  rw [show (contRow net sid d).2 = 0 from rfl,
    dot_contRow hsid (by omega) hdlt (by omega) xs] at hrow
  rw [zAt_applySolution hlen hsid (by omega),
    zAt_applySolution hlen hdlt (by omega)]
  linarith [hrow]

/-- Witness for C1: the concrete confluence network steps successfully and
its junction elevations agree. -/
theorem C1_elevation_continuity_witness :
    zAt (stepResult junctionNet 1) 0 (numel junctionNet 0 - 1) =
      zAt (stepResult junctionNet 1) 2 0 :=
  @C1_elevation_continuity junctionNet (stepResult junctionNet 1) 1
    (by decide) (by with_unfolding_all rfl) 0 2 (by decide) (by decide)

/-- C2: for every well-formed network, after a successful `advance_one_step`
the sediment-flux proxies leaving the upstream segments of any junction sum
exactly to the flux proxy entering its downstream segment: fluxes are
additive at junction nodes. -/
theorem C2_flux_conservation {net net' : Network} {dt : ℚ}
    (hwf : WellFormed net) (hstep : advance_one_step net dt = .ok net')
    {d : ℕ} (hd : d < net.nseg) (hups : (net.seg d).upstreamIDs ≠ []) :
    (((net.seg d).upstreamIDs).map (fluxOut net')).sum = fluxIn net' d := by
  obtain ⟨xs, hs, rfl⟩ := advance_ok_elim hstep
  have hlen := xs_length hs
  obtain ⟨-, -, -, hnd, -, -, hupsR, -⟩ := hwf d hd
  have hupb : ∀ u ∈ (net.seg d).upstreamIDs, u < net.nseg ∧ 2 ≤ numel net u := by
    intro u hu
    have h1 := hupsR u hu
    exact ⟨h1, (hwf u h1).2.2.2.1⟩
  have hrow := rows_satisfied hs _ (mem_equations hd (i := 0) (by omega))
  rw [rowFor_junction hups] at hrow
  rw [show (junctionRow net d).2 = 0 from rfl, dot_junctionRow hd hnd hupb xs] at hrow
  have hmap : ((net.seg d).upstreamIDs).map (fluxOut (applySolution net xs)) =
      ((net.seg d).upstreamIDs).map (fun u => fluxCoefEnd net u *
        (xs.getD (gidx net u (numel net u - 2)) 0 -
         xs.getD (gidx net u (numel net u - 1)) 0)) := by
    refine List.map_congr_left (fun u hu => ?_)
    obtain ⟨hu1, hu2⟩ := hupb u hu
    simp only [fluxOut, fluxCoefEnd, numel_applySolution hlen hu1,
      Dcoef_applySolution xs hu1, xAt_applySolution xs hu1,
      zAt_applySolution hlen hu1 (by omega : numel net u - 2 < numel net u),
      zAt_applySolution hlen hu1 (by omega : numel net u - 1 < numel net u)]
    ring
  rw [hmap]
  simp only [fluxIn, Dcoef_applySolution xs hd, xAt_applySolution xs hd,
    zAt_applySolution hlen hd (by omega : 0 < numel net d),
    zAt_applySolution hlen hd (by omega : 1 < numel net d)]
  rw [fluxCoefStart] at hrow
  linear_combination hrow

/-- Witness for C2: at the concrete confluence, the two upstream flux
proxies sum to the downstream flux proxy after the step. -/
theorem C2_flux_conservation_witness :
    (((junctionNet.seg 2).upstreamIDs).map
      (fluxOut (stepResult junctionNet 1))).sum =
    fluxIn (stepResult junctionNet 1) 2 :=
  @C2_flux_conservation junctionNet (stepResult junctionNet 1) 1
    (by decide) (by with_unfolding_all rfl) 2 (by decide) (by decide)

/-- C4: for every well-formed network, after a successful `advance_one_step`
every headwater segment's upstream slope (from its first two nodes) equals
its configured boundary slope exactly, and the outlet segment's final-node
elevation equals the configured base level exactly. -/
theorem C4_boundary_enforcement {net net' : Network} {dt : ℚ}
    (hwf : WellFormed net) (hstep : advance_one_step net dt = .ok net')
    {sid : ℕ} (hsid : sid < net.nseg) :
    ((net.seg sid).upstreamIDs = [] →
      (zAt net' sid 0 - zAt net' sid 1) / (xAt net' sid 1 - xAt net' sid 0) =
        (net.seg sid).S0.getD 0) ∧
    ((net.seg sid).downstreamIDs = [] →
      zAt net' sid (numel net sid - 1) = net.z_bl) := by
  obtain ⟨xs, hs, rfl⟩ := advance_ok_elim hstep
  have hlen := xs_length hs
  obtain ⟨hxlen, -, -, hn, hinc, -, -, -⟩ := hwf sid hsid
  constructor
  · intro hhead
    have hrow := rows_satisfied hs _ (mem_equations hsid (i := 0) (by omega))
    rw [rowFor_head hhead] at hrow
    rw [show (headRow net sid).2 =
        ((net.seg sid).S0.getD 0) * (xAt net sid 1 - xAt net sid 0) from rfl,
      dot_headRow hsid hn xs] at hrow
    have hdx : xAt net sid 0 < xAt net sid 1 := by
      have := pairwiseLt_getD hinc (i := 0) (by rw [hxlen]; omega)
      simpa [xAt] using this
    have hne : xAt net sid 1 - xAt net sid 0 ≠ 0 := ne_of_gt (sub_pos.mpr hdx)
    rw [zAt_applySolution hlen hsid (by omega : 0 < numel net sid),
      zAt_applySolution hlen hsid (by omega : 1 < numel net sid),
      xAt_applySolution xs hsid, xAt_applySolution xs hsid, hrow]
    exact mul_div_cancel_right₀ _ hne
  · intro hout
    have hrow := rows_satisfied hs _
      (mem_equations hsid (i := numel net sid - 1) (by omega))
    rw [rowFor_last_out hn hout] at hrow
    rw [show (outRow net sid).2 = net.z_bl from rfl, dot_outRow net sid xs] at hrow
    rw [zAt_applySolution hlen hsid (by omega : numel net sid - 1 < numel net sid)]
    exact hrow

/-- Witness for C4: the concrete three-node single-segment network is both
headwater and outlet; after one step its upstream slope equals the
configured slope and its final elevation equals the base level. -/
theorem C4_boundary_enforcement_witness :
    ((threeNodeNet.seg 0).upstreamIDs = [] →
      (zAt (stepResult threeNodeNet 1) 0 0 - zAt (stepResult threeNodeNet 1) 0 1) /
        (xAt (stepResult threeNodeNet 1) 0 1 - xAt (stepResult threeNodeNet 1) 0 0) =
        (threeNodeNet.seg 0).S0.getD 0) ∧
    ((threeNodeNet.seg 0).downstreamIDs = [] →
      zAt (stepResult threeNodeNet 1) 0 (numel threeNodeNet 0 - 1) =
        threeNodeNet.z_bl) :=
  @C4_boundary_enforcement threeNodeNet (stepResult threeNodeNet 1) 1
    (by decide) (by with_unfolding_all rfl) 0 (by decide)

lemma range_map_getD_comp {α β : Type} (l : List α) (d : α) (g : α → β) :
    (List.range l.length).map (fun i => g (l.getD i d)) = l.map g := by
  rw [show (fun i => g (l.getD i d)) = g ∘ (fun i => l.getD i d) from rfl,
    ← List.map_map, range_map_getD]

lemma applySolution_proj (net : Network) (xs : Vec) :
    (applySolution net xs).segs.map
      (fun s => (s.x, s.Q, s.B, s.S0, s.upstreamIDs, s.downstreamIDs)) =
    net.segs.map
      (fun s => (s.x, s.Q, s.B, s.S0, s.upstreamIDs, s.downstreamIDs)) := by
  rw [show (applySolution net xs).segs = (List.range net.nseg).map (fun sid =>
      let s := net.seg sid
      { s with z := (xs.drop (offset net sid)).take s.z.length }) from rfl,
    List.map_map]
  have hfun : ((fun (s : Seg) => (s.x, s.Q, s.B, s.S0, s.upstreamIDs,
        s.downstreamIDs)) ∘
      (fun sid => let s := net.seg sid
        { s with z := (xs.drop (offset net sid)).take s.z.length })) =
      (fun sid => ((net.seg sid).x, (net.seg sid).Q, (net.seg sid).B,
        (net.seg sid).S0, (net.seg sid).upstreamIDs,
        (net.seg sid).downstreamIDs)) := rfl
  rw [hfun]
  exact range_map_getD_comp net.segs default
    (fun s => (s.x, s.Q, s.B, s.S0, s.upstreamIDs, s.downstreamIDs))

/-- C5: after any number of steps, every segment's position array,
discharge, width, boundary slope and adjacency are identical to their
initial values; only elevation evolves. -/
theorem C5_geometry_topology_immutable (net : Network) (dt : ℚ) (nt : ℕ) :
    ((evolve_threshold_width_river_network net dt nt).1).segs.map
      (fun s => (s.x, s.Q, s.B, s.S0, s.upstreamIDs, s.downstreamIDs)) =
    net.segs.map
      (fun s => (s.x, s.Q, s.B, s.S0, s.upstreamIDs, s.downstreamIDs)) := by
  induction nt generalizing net with
  | zero => rfl
  | succ k ih =>
    cases hstep : advance_one_step net dt with
    | error e =>
      rw [show evolve_threshold_width_river_network net dt (k+1) = (net, some e)
        from by rw [evolve_threshold_width_river_network, hstep]]
    | ok net' =>
      rw [show evolve_threshold_width_river_network net dt (k+1) =
          evolve_threshold_width_river_network net' dt k
        from by rw [evolve_threshold_width_river_network, hstep], ih net']
      obtain ⟨xs, -, rfl⟩ := advance_ok_elim hstep
      exact applySolution_proj net xs

/-- C3: when an `advance_one_step` solve fails with a NumericalError, the
time stepper leaves the network exactly in its pre-call state: no partial
commit, the failed solution is never applied. -/
theorem C3_no_partial_commit {net : Network} {dt : ℚ} {e : Err}
    (h : advance_one_step net dt = .error e) (k : ℕ) :
    evolve_threshold_width_river_network net dt (k + 1) = (net, some e) := by
  rw [evolve_threshold_width_river_network, h]

/-- Witness for C3: the zero-discharge confluence assembles a singular
system, the step fails, and the stepper reports the untouched network. -/
theorem C3_no_partial_commit_witness :
    evolve_threshold_width_river_network singularNet 1 1 =
      (singularNet, some Err.numericalError) :=
  @C3_no_partial_commit singularNet 1 Err.numericalError
    (by with_unfolding_all rfl) 0

lemma flatten_getD (L : List (List ℚ)) :
    ∀ sid, sid < L.length → ∀ i, i < (L.getD sid []).length →
      L.flatten.getD (((L.take sid).map List.length).sum + i) 0 =
        (L.getD sid []).getD i 0 := by
  induction L with
  | nil => intro sid h; intro i; simp at h
  | cons hl t ih =>
    intro sid hsid i hi
    cases sid with
    | zero =>
      simp only [List.take_zero, List.map_nil, List.sum_nil, Nat.zero_add]
      rw [show (hl :: t).flatten = hl ++ t.flatten from rfl,
        List.getD_append _ _ _ _ (by simpa using hi)]
      simp
    | succ s =>
      have hsid' : s < t.length := by simpa using hsid
      have hi' : i < (t.getD s []).length := by simpa using hi
      rw [show (hl :: t).flatten = hl ++ t.flatten from rfl,
        show (hl :: t).take (s+1) = hl :: t.take s from rfl,
        List.map_cons, List.sum_cons, Nat.add_assoc,
        List.getD_append_right _ _ _ _ (by omega)]
      rw [show hl.length + (((t.take s).map List.length).sum + i) - hl.length =
        ((t.take s).map List.length).sum + i from by omega]
      rw [show (hl :: t).getD (s+1) [] = t.getD s [] from rfl]
      exact ih s hsid' i hi'

lemma length_flatZ (net : Network) : (flatZ net).length = totalN net := by
  rw [flatZ, List.length_flatten, List.map_map]
  rfl

lemma flatZ_getD {net : Network} {sid i : ℕ} (h1 : sid < net.nseg)
    (h2 : i < numel net sid) :
    (flatZ net).getD (gidx net sid i) 0 = zAt net sid i := by
  have hL1 : sid < (net.segs.map Seg.z).length := by
    simpa using h1
  have hGD : (net.segs.map Seg.z).getD sid [] = (net.seg sid).z := by
    rw [List.getD_eq_getElem _ _ hL1, List.getElem_map, seg_eq_getElem h1,
      List.get_eq_getElem]
  have hmain := flatten_getD (net.segs.map Seg.z) sid hL1 i (by rw [hGD]; exact h2)
  rw [hGD] at hmain
  have hoff : ((((net.segs.map Seg.z).take sid).map List.length)).sum =
      offset net sid := by
    rw [← List.map_take, List.map_map, offset]
    rfl
  rw [hoff] at hmain
  exact hmain

lemma applySolution_flatZ (net : Network) : applySolution net (flatZ net) = net := by
  have hlen := length_flatZ net
  have hslice : ∀ sid, sid < net.nseg →
      ((flatZ net).drop (offset net sid)).take (net.seg sid).z.length =
        (net.seg sid).z := by
    intro sid hsid
    apply List.ext_getElem
    · simp only [List.length_take, List.length_drop, hlen]
      have := offset_add_le hsid
      rw [numel] at this
      omega
    · intro i hi1 hi2
      rw [List.getElem_take, List.getElem_drop]
      have h2 : i < numel net sid := hi2
      have hm := flatZ_getD hsid h2
      rw [List.getD_eq_getElem _ _ (by rw [hlen]; exact gidx_lt_totalN hsid h2),
        zAt, List.getD_eq_getElem _ _ hi2] at hm
      exact hm
  have hsegs : (List.range net.nseg).map (fun sid =>
      let s := net.seg sid
      { s with z := ((flatZ net).drop (offset net sid)).take s.z.length }) =
      net.segs := by
    calc (List.range net.nseg).map (fun sid =>
        let s := net.seg sid
        { s with z := ((flatZ net).drop (offset net sid)).take s.z.length })
        = (List.range net.nseg).map (fun sid => net.seg sid) := by
          refine List.map_congr_left (fun sid hsid => ?_)
          show ({ net.seg sid with
            z := ((flatZ net).drop (offset net sid)).take (net.seg sid).z.length }
              : Seg) = net.seg sid
          rw [hslice sid (List.mem_range.mp hsid)]
      _ = net.segs := range_map_getD net.segs default
  show { net with segs := (List.range net.nseg).map (fun sid =>
      let s := net.seg sid
      { s with z := ((flatZ net).drop (offset net sid)).take s.z.length }) } = net
  rw [hsegs]

lemma equilibrium_rows {net : Network} (hwf : WellFormed net)
    (heq : Equilibrium net) (dt : ℚ) :
    ∀ e ∈ equations net dt, dot e.1 (flatZ net) = e.2 := by
  intro e he
  obtain ⟨sid, i, hsid, hi, rfl⟩ := equations_elim he
  obtain ⟨hxlen, hQlen, hBlen, hn, hinc, hdlen, hupsR, hdownR⟩ := hwf sid hsid
  obtain ⟨heqI, heqH, heqJ, heqO, heqC⟩ := heq sid hsid
  by_cases hi0 : i = 0
  · subst hi0
    by_cases hups : (net.seg sid).upstreamIDs = []
    · rw [rowFor_head hups, show (headRow net sid).2 =
          ((net.seg sid).S0.getD 0) * (xAt net sid 1 - xAt net sid 0) from rfl,
        dot_headRow hsid hn, flatZ_getD hsid (by omega : 0 < numel net sid),
        flatZ_getD hsid (by omega : 1 < numel net sid)]
      exact heqH hups
    · have hupb : ∀ u ∈ (net.seg sid).upstreamIDs,
          u < net.nseg ∧ 2 ≤ numel net u :=
        fun u hu => ⟨hupsR u hu, (hwf u (hupsR u hu)).2.2.2.1⟩
      rw [rowFor_junction hups, show (junctionRow net sid).2 = 0 from rfl,
        dot_junctionRow hsid hn hupb]
      have hmap : ((net.seg sid).upstreamIDs).map (fun u => fluxCoefEnd net u *
          ((flatZ net).getD (gidx net u (numel net u - 2)) 0 -
           (flatZ net).getD (gidx net u (numel net u - 1)) 0)) =
          ((net.seg sid).upstreamIDs).map (fluxOut net) := by
        refine List.map_congr_left (fun u hu => ?_)
        obtain ⟨hu1, hu2⟩ := hupb u hu
        rw [flatZ_getD hu1 (by omega : numel net u - 2 < numel net u),
          flatZ_getD hu1 (by omega : numel net u - 1 < numel net u),
          fluxOut, fluxCoefEnd]
        ring
      rw [hmap, flatZ_getD hsid (by omega : 0 < numel net sid),
        flatZ_getD hsid (by omega : 1 < numel net sid), heqJ hups, fluxIn,
        fluxCoefStart]
      ring
  · by_cases hlast : i = numel net sid - 1
    · subst hlast
      cases hds : (net.seg sid).downstreamIDs with
      | nil =>
        rw [rowFor_last_out hn hds, show (outRow net sid).2 = net.z_bl from rfl,
          dot_outRow, flatZ_getD hsid (by omega : numel net sid - 1 < numel net sid)]
        exact heqO hds
      | cons d rest =>
        have hdlt : d < net.nseg := hdownR d (by rw [hds]; simp)
        have hnd : 2 ≤ numel net d := (hwf d hdlt).2.2.2.1
        rw [rowFor_last_cont hn hds, show (contRow net sid d).2 = 0 from rfl,
          dot_contRow hsid (by omega) hdlt (by omega),
          flatZ_getD hsid (by omega : numel net sid - 1 < numel net sid),
          flatZ_getD hdlt (by omega : 0 < numel net d),
          heqC d (by rw [hds]; simp), sub_self]
    · have hi1 : i + 1 < numel net sid := by omega
      have hi0' : 0 < i := by omega
      rw [rowFor_interior hi0' hi1, show (interiorRow net dt sid i).2 =
          zAt net sid i from rfl, dot_interiorRow hsid hi0' hi1,
        flatZ_getD hsid (by omega : i - 1 < numel net sid),
        flatZ_getD hsid (by omega : i < numel net sid),
        flatZ_getD hsid hi1, amCoef, apCoef]
      have h := heqI i (by omega) hi0' hi1
      linear_combination
        (-(dt / ((xAt net sid (i+1) - xAt net sid (i-1)) / 2))) * h

/-- C8: a well-formed network whose state is already at discrete equilibrium
(uniform flux along every segment, boundary and junction conditions met) is
a fixed point of the stepper: any number of `advance_one_step` calls leaves
every elevation unchanged (zero drift, below any tolerance). -/
theorem C8_steady_state {net : Network} (hwf : WellFormed net)
    (heq : Equilibrium net) (dt : ℚ) (k : ℕ) :
    (evolve_threshold_width_river_network net dt k).1 = net := by
  induction k with
  | zero => rfl
  | succ m ih =>
    cases hstep : advance_one_step net dt with
    | error e =>
      rw [show evolve_threshold_width_river_network net dt (m+1) = (net, some e)
        from by rw [evolve_threshold_width_river_network, hstep]]
    | ok net' =>
      have hnet : net' = net := by
        obtain ⟨xs, hs, rfl⟩ := advance_ok_elim hstep
        have hsatf : mulVec ((equations net dt).map Prod.fst) (flatZ net) =
            (equations net dt).map Prod.snd := by
          rw [mulVec, List.map_map]
          exact List.map_congr_left (fun e he => equilibrium_rows hwf heq dt e he)
        have huniq := (solveLinear_some hs).2.2 (flatZ net) (length_flatZ net) hsatf
        rw [← huniq, applySolution_flatZ]
      rw [show evolve_threshold_width_river_network net dt (m+1) =
          evolve_threshold_width_river_network net' dt m
        from by rw [evolve_threshold_width_river_network, hstep], hnet, ih]

/-- Witness for C8: the concrete equilibrium profile is left exactly in
place by three steps of the stepper. -/
theorem C8_steady_state_witness :
    (evolve_threshold_width_river_network equilibriumNet 1 3).1 =
      equilibriumNet :=
  C8_steady_state (by decide) (by with_unfolding_all decide) 1 3

lemma stepIter_succ (down : List (List ℕ)) (k s : ℕ) :
    stepIter down (k + 1) s = (stepFn down s).bind (stepIter down k) := rfl

lemma stepIter_add (down : List (List ℕ)) (a b s : ℕ) :
    stepIter down (a + b) s =
      (stepIter down a s).bind (fun t => stepIter down b t) := by
  induction a generalizing s with
  | zero => simp [stepIter]
  | succ a ih =>
    calc stepIter down (a + 1 + b) s
        = (stepFn down s).bind (stepIter down (a + b)) := by
          rw [show a + 1 + b = (a + b) + 1 from by omega, stepIter_succ]
      _ = (stepFn down s).bind
            (fun t => (stepIter down a t).bind (fun r => stepIter down b r)) := by
          cases stepFn down s with
          | none => rfl
          | some t => simpa using ih t
      _ = (stepIter down (a + 1) s).bind (fun t => stepIter down b t) := by
          rw [stepIter_succ, Option.bind_assoc]

lemma outlet_stepIter_none {down : List (List ℕ)} {o : ℕ}
    (ho : down.getD o [] = []) {b : ℕ} (hb : 0 < b) :
    stepIter down b o = none := by
  cases b with
  | zero => omega
  | succ b =>
    rw [stepIter_succ, stepFn, ho]
    rfl

lemma stepIter_mul_self {down : List (List ℕ)} {k s : ℕ}
    (h : stepIter down k s = some s) :
    ∀ q, stepIter down (q * k) s = some s := by
  intro q
  induction q with
  | zero => rw [Nat.zero_mul]; rfl
  | succ q ih =>
    rw [show (q + 1) * k = q * k + k from by ring, stepIter_add, ih]
    simpa using h

lemma outletOK_elim {down : List (List ℕ)} {n : ℕ} (h : outletOK down n = true) :
    ReachesUniqueOutlet down n := by
  rw [outletOK] at h
  simp only [Bool.and_eq_true, beq_iff_eq] at h
  obtain ⟨h1, h2⟩ := h
  obtain ⟨o, ho⟩ := List.length_eq_one.mp h1
  have hom : o ∈ (List.range n).filter (fun s => (down.getD s []).isEmpty) := by
    rw [ho]
    simp
  have ho1 : o < n := List.mem_range.mp (List.mem_filter.mp hom).1
  have ho2 : down.getD o [] = [] := by
    have := (List.mem_filter.mp hom).2
    simpa using this
  refine ⟨o, ho1, ho2, ?_⟩
  intro s hs
  rw [List.all_eq_true] at h2
  have hrb := h2 s (List.mem_range.mpr hs)
  rw [ho, List.all_eq_true] at hrb
  have hrb2 := hrb o (by simp)
  rw [reachesOutletB, List.any_eq_true] at hrb2
  obtain ⟨k, hk, hkeq⟩ := hrb2
  have hk2 : k ≤ n := by
    have := List.mem_range.mp hk
    omega
  exact ⟨k, hk2, by simpa using hkeq⟩

lemma initNetwork_ok_elim {x_bl z_bl : ℚ} {S0 : List ℚ} {up down : List (List ℕ)}
    {x z Q B : List (List ℚ)} {net : Network}
    (h : initNetwork x_bl z_bl S0 up down x z Q B = .ok net) :
    topologyOK up down = true ∧ configOK S0 up x z Q B = true ∧
      net = buildNetwork x_bl z_bl S0 up down x z Q B := by
  rw [initNetwork] at h
  by_cases h1 : topologyOK up down = true
  · rw [if_pos h1] at h
    by_cases h2 : configOK S0 up x z Q B = true
    · rw [if_pos h2] at h
      cases h
      exact ⟨h1, h2, rfl⟩
    · rw [if_neg h2] at h
      exact absurd h (by simp)
  · rw [if_neg h1] at h
    exact absurd h (by simp)

lemma buildNetwork_nseg (x_bl z_bl : ℚ) (S0 : List ℚ) (up down : List (List ℕ))
    (x z Q B : List (List ℚ)) :
    (buildNetwork x_bl z_bl S0 up down x z Q B).nseg = up.length := by
  simp [buildNetwork, Network.nseg]

lemma buildNetwork_seg {x_bl z_bl : ℚ} {S0 : List ℚ} {up down : List (List ℕ)}
    {x z Q B : List (List ℚ)} {i : ℕ} (h : i < up.length) :
    (buildNetwork x_bl z_bl S0 up down x z Q B).seg i =
      buildSeg S0 up down x z Q B i := by
  rw [show (buildNetwork x_bl z_bl S0 up down x z Q B).seg i =
    ((List.range up.length).map (buildSeg S0 up down x z Q B)).getD i default
    from rfl]
  exact getD_range_map _ _ h

lemma buildNetwork_downs {x_bl z_bl : ℚ} {S0 : List ℚ} {up down : List (List ℕ)}
    {x z Q B : List (List ℚ)} (hlen : down.length = up.length) :
    (buildNetwork x_bl z_bl S0 up down x z Q B).segs.map
      (fun s => s.downstreamIDs) = down := by
  rw [show (buildNetwork x_bl z_bl S0 up down x z Q B).segs =
    (List.range up.length).map (buildSeg S0 up down x z Q B)
    from rfl, List.map_map]
  rw [show ((fun (s : Seg) => s.downstreamIDs) ∘ buildSeg S0 up down x z Q B) =
      (fun i => down.getD i []) from rfl, ← hlen]
  exact range_map_getD down []

/-- C6: initialization fails with a TopologyError (and constructs nothing)
whenever some segment declares a downstream neighbor that does not list it
back as upstream, or when following downstream links does not take every
segment to a single outlet. -/
theorem C6_topology_error (x_bl z_bl : ℚ) (S0 : List ℚ)
    (up down : List (List ℕ)) (x z Q B : List (List ℚ))
    (h : (∃ i, i < up.length ∧ ∃ j ∈ down.getD i [], i ∉ up.getD j []) ∨
      ¬ ReachesUniqueOutlet down up.length) :
    initNetwork x_bl z_bl S0 up down x z Q B = .error .topologyError := by
  rw [initNetwork, if_neg]
  intro htop
  rw [topologyOK, Bool.and_eq_true] at htop
  obtain ⟨hadj, hout⟩ := htop
  rcases h with ⟨i, hi, j, hj, hnot⟩ | hro
  · rw [consistentAdjacency, decide_eq_true_eq] at hadj
    exact hnot (hadj.2.1 i hi j hj).2
  · exact hro (outletOK_elim hout)

/-- Witness for C6: a two-segment input where segment 0 declares segment 1
as downstream but segment 1 does not list segment 0 as upstream is rejected
with a TopologyError. -/
theorem C6_topology_error_witness :
    initNetwork 0 0 [1, 1] [[], []] [[1], []]
      [[0, 1], [0, 1]] [[0, 0], [0, 0]] [[1, 1], [1, 1]] [[1, 1], [1, 1]] =
      .error .topologyError :=
  C6_topology_error 0 0 [1, 1] [[], []] [[1], []]
    [[0, 1], [0, 1]] [[0, 0], [0, 0]] [[1, 1], [1, 1]] [[1, 1], [1, 1]]
    (Or.inl ⟨0, by decide, 1, by decide, by decide⟩)

/-- C7: every network accepted by initialization has at most one downstream
segment per segment, a unique outlet that every segment reaches by following
downstream links, and no segment that is its own downstream ancestor. -/
theorem C7_dag_structure {x_bl z_bl : ℚ} {S0 : List ℚ} {up down : List (List ℕ)}
    {x z Q B : List (List ℚ)} {net : Network}
    (h : initNetwork x_bl z_bl S0 up down x z Q B = .ok net) :
    (∀ sid < net.nseg, ((net.seg sid).downstreamIDs).length ≤ 1) ∧
    (∃ o, o < net.nseg ∧ (net.seg o).downstreamIDs = [] ∧
      (∀ o2 < net.nseg, (net.seg o2).downstreamIDs = [] → o2 = o) ∧
      (∀ s < net.nseg, ∃ k, k ≤ net.nseg ∧ netIter net k s = some o)) ∧
    (∀ s < net.nseg, ∀ k, 0 < k → netIter net k s ≠ some s) := by
  obtain ⟨htop, hcfg, rfl⟩ := initNetwork_ok_elim h
  rw [topologyOK, Bool.and_eq_true] at htop
  obtain ⟨hadj, hout⟩ := htop
  have hadj' := hadj
  rw [consistentAdjacency, decide_eq_true_eq] at hadj'
  have hlen : down.length = up.length := hadj'.1
  have hnseg : (buildNetwork x_bl z_bl S0 up down x z Q B).nseg = up.length :=
    buildNetwork_nseg x_bl z_bl S0 up down x z Q B
  have hiter : netIter (buildNetwork x_bl z_bl S0 up down x z Q B) =
      stepIter down := by
    rw [netIter, buildNetwork_downs hlen]
  have hsegdown : ∀ sid, sid < up.length →
      ((buildNetwork x_bl z_bl S0 up down x z Q B).seg sid).downstreamIDs =
        down.getD sid [] := by
    intro sid hsid
    rw [buildNetwork_seg hsid]
    rfl
  obtain ⟨o, ho1, ho2, hreach⟩ := outletOK_elim hout
  refine ⟨?_, ⟨o, ?_, ?_, ?_, ?_⟩, ?_⟩
  · intro sid hsid
    rw [hnseg] at hsid
    rw [hsegdown sid hsid]
    exact hadj'.2.2.2 sid hsid
  · rw [hnseg]
    exact ho1
  · rw [hsegdown o ho1]
    exact ho2
  · intro o2 ho2n ho2out
    rw [hnseg] at ho2n
    rw [hsegdown o2 ho2n] at ho2out
    obtain ⟨k, hk, hkeq⟩ := hreach o2 ho2n
    cases k with
    | zero => exact Option.some_inj.mp hkeq
    | succ k2 =>
      rw [outlet_stepIter_none ho2out (by omega)] at hkeq
      exact absurd hkeq (by simp)
  · intro s hs
    rw [hnseg] at hs
    obtain ⟨k, hk, hkeq⟩ := hreach s hs
    rw [hiter, hnseg]
    exact ⟨k, hk, hkeq⟩
  · intro s hs k hkpos hcyc
    rw [hnseg] at hs
    rw [hiter] at hcyc
    obtain ⟨m, hm, hms⟩ := hreach s hs
    have hnone : stepIter down (m + 1) s = none := by
      rw [stepIter_add down m 1 s, hms]
      simpa using outlet_stepIter_none ho2 (b := 1) (by omega)
    have hper := stepIter_mul_self hcyc (m + 1)
    have hsplit : stepIter down ((m + 1) * k) s = none := by
      rw [show (m + 1) * k = (m + 1) + ((m + 1) * k - (m + 1)) from by
          have h1 : (m + 1) * 1 ≤ (m + 1) * k := Nat.mul_le_mul_left _ hkpos
          omega,
        stepIter_add, hnone]
      rfl
    rw [hper] at hsplit
    exact absurd hsplit (by simp)

/-- Witness for C7: the example driver's five-segment network is accepted
by initialization and exhibits the DAG structure. -/
theorem C7_dag_structure_witness :
    (∀ sid < driverNet.nseg, ((driverNet.seg sid).downstreamIDs).length ≤ 1) ∧
    (∃ o, o < driverNet.nseg ∧ (driverNet.seg o).downstreamIDs = [] ∧
      (∀ o2 < driverNet.nseg, (driverNet.seg o2).downstreamIDs = [] → o2 = o) ∧
      (∀ s < driverNet.nseg, ∃ k, k ≤ driverNet.nseg ∧
        netIter driverNet k s = some o)) ∧
    (∀ s < driverNet.nseg, ∀ k, 0 < k → netIter driverNet k s ≠ some s) :=
  @C7_dag_structure 32000 0 driverS0 driverUps driverDowns driverX driverZ
    driverQ driverB driverNet (by with_unfolding_all rfl)

set_option maxRecDepth 4000 in
/-- C9: the single-headwater scenario (5 nodes, discharge 10, width 100,
upstream slope 1/100, base level 0) initializes, advances one step under the
driver's large timestep without failure (the exact-arithmetic counterpart of
producing no non-finite values), and the resulting profile still falls
monotonically from head to outlet: the prescribed downstream gradient is not
reversed. -/
theorem C9_single_segment_large_dt :
    headwaterScenarioInit = .ok headwaterScenarioNet ∧
    advance_one_step headwaterScenarioNet 315000000 = .ok headwaterScenarioStep ∧
    zAt headwaterScenarioStep 0 0 > zAt headwaterScenarioStep 0 1 ∧
    zAt headwaterScenarioStep 0 1 > zAt headwaterScenarioStep 0 2 ∧
    zAt headwaterScenarioStep 0 2 > zAt headwaterScenarioStep 0 3 ∧
    zAt headwaterScenarioStep 0 3 > zAt headwaterScenarioStep 0 4 ∧
    zAt headwaterScenarioStep 0 4 = 0 := by
  refine ⟨?_, ?_, ?_, ?_, ?_, ?_, ?_⟩
  · with_unfolding_all rfl
  · with_unfolding_all rfl
  · with_unfolding_all decide
  · with_unfolding_all decide
  · with_unfolding_all decide
  · with_unfolding_all decide
  · with_unfolding_all decide

set_option maxRecDepth 4000 in
/-- C10: initialization takes `S0` with exactly one entry per headwater
segment, assigned in increasing order of segment identifier — the driver's
length-3 list for the 5-segment network with headwaters 0, 1 and 3 is
accepted, and segments 0, 1 and 3 receive the three entries in order while
the junction-fed segments 2 and 4 carry none. -/
theorem C10_S0_per_headwater :
    driverS0.length = 3 ∧ driverUps.length = 5 ∧
    ((List.range driverUps.length).filter
      (fun i => (driverUps.getD i []).isEmpty)) = [0, 1, 3] ∧
    driverInitResult = .ok driverNet ∧
    driverNet.segs.map Seg.S0 =
      [some (3/100), some (3/200), none, some (1/100), none] := by
  refine ⟨?_, ?_, ?_, ?_, ?_⟩
  · with_unfolding_all rfl
  · with_unfolding_all rfl
  · with_unfolding_all rfl
  · with_unfolding_all rfl
  · with_unfolding_all decide

end GRLP
